import Mathlib

/-!
# Verification of the shipment-list manager (FedEx CSV generator)

Shallow embedding of the core logic of the `Home` component
(`src/unnamed/part_000`): JavaScript-number arithmetic on an extended
rational type (`JSNum`), `parseFloat` / `Number.prototype.toString`,
form validation, and the add / update / edit / delete / cancel /
clear / export handlers, followed by theorems about the embedded
operations.
-/

/-- A JavaScript number, modelled exactly: a finite value is an exact
rational (we do not model IEEE-754 rounding or overflow), and the
special values `NaN`, `Infinity`, `-Infinity` are explicit
constructors, since `parseFloat` can produce them and the validation
logic tests `isNaN`. -/
inductive JSNum where
  | nan : JSNum
  | posInf : JSNum
  | negInf : JSNum
  | fin : ℚ → JSNum
deriving DecidableEq, Repr

/-- JavaScript `isNaN`. -/
def JSNum.isNaN : JSNum → Bool
  | .nan => true
  | _ => false

/-- JavaScript `<=` on numbers: any comparison with `NaN` is false. -/
def JSNum.leJS : JSNum → JSNum → Bool
  | .nan, _ => false
  | _, .nan => false
  | .negInf, _ => true
  | _, .posInf => true
  | .posInf, _ => false
  | .fin _, .negInf => false
  | .fin a, .fin b => decide (a ≤ b)

/-- `Math.ceil`: identity on `NaN` and the infinities, integer ceiling
on finite values (`Rat.ceil` is proved below to agree with `⌈·⌉`). -/
def JSNum.ceil : JSNum → JSNum
  | .fin q => .fin (q.ceil : ℤ)
  | v => v

/-- Strict positivity of a JavaScript number (`0 < v` with JavaScript
comparison semantics: false for `NaN`). -/
def JSNum.pos : JSNum → Bool
  | .posInf => true
  | .fin q => decide (0 < q)
  | _ => false

/-- A JavaScript number is finite iff it is neither `NaN` nor an
infinity. -/
def JSNum.isFinite : JSNum → Bool
  | .fin _ => true
  | _ => false

/-- Decimal digit characters (code points 48-57, i.e. `'0'`-`'9'`). -/
def isDigitChar (c : Char) : Bool := decide (48 ≤ c.toNat ∧ c.toNat ≤ 57)

/-- The whitespace characters stripped by `parseFloat` (the common
ASCII ones; exotic Unicode space code points never occur in the
strings this development manipulates). -/
def isWSChar (c : Char) : Bool :=
  decide (c.toNat = 32 ∨ c.toNat = 9 ∨ c.toNat = 10 ∨ c.toNat = 13 ∨
    c.toNat = 11 ∨ c.toNat = 12)

/-- Numeric value of a digit string, most significant digit first. -/
def digitsVal (ds : List Char) : Nat :=
  ds.foldl (fun a c => a * 10 + (c.toNat - 48)) 0

/-- Splits an optional sign off the front of a character list.
Returns `true` for a consumed `'-'`. -/
def splitSign : List Char → Bool × List Char
  | c :: rest =>
    if c = '-' then (true, rest)
    else if c = '+' then (false, rest)
    else (false, c :: rest)
  | [] => (false, [])

/-- The exponent of a JavaScript decimal literal: after `e`/`E`, an
optional sign and digits; an `e` not followed by digits contributes
exponent `0` (that suffix is trailing garbage, which `parseFloat`
ignores). -/
def parseExp : List Char → Int
  | c :: rest =>
    if c = 'e' || c = 'E' then
      let (esign, rest2) := splitSign rest
      let eDs := rest2.takeWhile isDigitChar
      if eDs = [] then 0
      else if esign then -(digitsVal eDs : Int) else (digitsVal eDs : Int)
    else 0
  | [] => 0

/-- The exact rational value of a decimal literal with integer digits
`intDs`, fraction digits `fracDs` and exponent `e0`, computed with
integer arithmetic and `mkRat` (so that it evaluates by kernel
reduction); `decValue_eq` below proves it equal to the textbook
formula `(int + frac / 10 ^ |frac|) * 10 ^ e0`. -/
def decValue (intDs fracDs : List Char) (e0 : Int) : ℚ :=
  let m : Int := (digitsVal intDs * 10 ^ fracDs.length + digitsVal fracDs : Nat)
  let e : Int := e0 - fracDs.length
  if 0 ≤ e then mkRat (m * 10 ^ e.toNat) 1 else mkRat m (10 ^ (-e).toNat)

/-- `parseFloat` on a character list: strips leading whitespace, reads
an optional sign, recognises the `Infinity` literal, otherwise reads
the longest decimal-literal prefix (`digits`, `digits.digits`,
`.digits`, optionally followed by an exponent) and ignores any
trailing garbage; yields `NaN` when no prefix parses. Finite values
are exact (no IEEE-754 rounding or overflow). -/
def parseFloatChars (cs0 : List Char) : JSNum :=
  let cs := (cs0.dropWhile isWSChar)
  let scs := splitSign cs
  if scs.2.take 8 = ['I', 'n', 'f', 'i', 'n', 'i', 't', 'y'] then
    if scs.1 then .negInf else .posInf
  else
    let intDs := scs.2.takeWhile isDigitChar
    let cs1 := scs.2.dropWhile isDigitChar
    let fracDs :=
      match cs1 with
      | c1 :: rest => if c1 = '.' then rest.takeWhile isDigitChar else []
      | [] => []
    let cs2 :=
      match cs1 with
      | c1 :: rest => if c1 = '.' then rest.dropWhile isDigitChar else cs1
      | [] => cs1
    if intDs = [] ∧ fracDs = [] then .nan
    else
      let v := decValue intDs fracDs (parseExp cs2)
      .fin (if scs.1 then -v else v)

/-- JavaScript `parseFloat` on a string. -/
def parseFloat (s : String) : JSNum := parseFloatChars s.data

example : parseFloat "5.5" = .fin (mkRat 11 2) := by decide
example : parseFloat "" = .nan := by decide
example : parseFloat "Infinity" = .posInf := by decide
example : parseFloat "-Infinity" = .negInf := by decide
example : parseFloat "12" = .fin 12 := by decide
example : parseFloat "abc" = .nan := by decide
example : parseFloat "-0.5" = .fin (mkRat (-1) 2) := by decide
example : parseFloat "1e2" = .fin 100 := by decide
example : parseFloat "2.5e-1" = .fin (mkRat 1 4) := by decide
example : parseFloat "  7.25xyz" = .fin (mkRat 29 4) := by decide
example : parseFloat "." = .nan := by decide
example : parseFloat "0" = .fin 0 := by decide

/-- Number of times `p` divides `n` (fuel-based so that it reduces by
kernel evaluation; `fuel ≥ n` suffices). -/
def powDivAux (p : Nat) : Nat → Nat → Nat
  | 0, _ => 0
  | fuel + 1, n => if 2 ≤ p ∧ p ∣ n ∧ n ≠ 0 then powDivAux p fuel (n / p) + 1 else 0

/-- The multiplicity of `p` in `n` (for `2 ≤ p`, `n ≠ 0`). -/
def powDiv (p n : Nat) : Nat := powDivAux p n n

example : powDiv 2 40 = 3 := by decide
example : powDiv 5 40 = 1 := by decide

/-- The decimal digits of a natural number, most significant first
(fuel-based so that it reduces by kernel evaluation). -/
def natToCharsAux : Nat → Nat → List Char → List Char
  | 0, _, acc => acc
  | fuel + 1, n, acc =>
    let c := Char.ofNat (48 + n % 10)
    if n < 10 then c :: acc else natToCharsAux fuel (n / 10) (c :: acc)

/-- The decimal digit string of a natural number (`(37).toString()`
style: no sign, no leading zeros, `"0"` for zero). -/
def natToChars (n : Nat) : List Char := natToCharsAux (n + 1) n []

example : natToChars 0 = ['0'] := by decide
example : natToChars 1203 = ['1', '2', '0', '3'] := by decide

/-- The character list printed for the non-negative rational
`num / den` (`den ≠ 0`, in lowest terms) by JavaScript
`Number.prototype.toString`: the plain decimal expansion with the
minimal number `k` of fraction digits. (JavaScript switches to
exponential notation for magnitudes `≥ 1e21` or `< 1e-6`; the
development only ever inspects this string through `parseFloat`, for
which the two notations denote the same value.) -/
def decCharsOf (num den : Nat) : List Char :=
  let k := max (powDiv 2 den) (powDiv 5 den)
  let m := num * (10 ^ k / den)
  if k = 0 then natToChars m
  else
    let ds := natToChars m
    let ds := List.replicate (k + 1 - ds.length) '0' ++ ds
    ds.take (ds.length - k) ++ '.' :: ds.drop (ds.length - k)

/-- JavaScript `Number.prototype.toString` on our number model. -/
def jsToString (v : JSNum) : String :=
  match v with
  | .nan => "NaN"
  | .posInf => "Infinity"
  | .negInf => "-Infinity"
  | .fin q =>
    if q.num < 0 then ⟨'-' :: decCharsOf q.num.natAbs q.den⟩
    else ⟨decCharsOf q.num.toNat q.den⟩

example : jsToString (.fin (mkRat 11 2)) = "5.5" := by decide
example : jsToString (.fin 12) = "12" := by decide
example : jsToString (.fin 0) = "0" := by decide
example : jsToString (.fin (mkRat 1 2)) = "0.5" := by decide
example : jsToString (.fin (mkRat (-1) 400)) = "-0.0025" := by decide
example : jsToString .posInf = "Infinity" := by decide
example : parseFloat (jsToString (.fin (mkRat 123 8))) = .fin (mkRat 123 8) := by decide

/-- One shipment record (`Shipment` in `src/client/src/types/shipment.ts`). -/
structure Shipment where
  id : String
  length : JSNum
  width : JSNum
  height : JSNum
  weight : JSNum
  reference : String
deriving DecidableEq, Repr

/-- The string-valued form draft (`ShipmentFormData`). -/
structure ShipmentFormData where
  length : String
  width : String
  height : String
  weight : String
  reference : String
deriving DecidableEq, Repr

/-- The empty draft the form is reset to. -/
def emptyFormData : ShipmentFormData :=
  { length := "", width := "", height := "", weight := "", reference := "" }

/-- A user-facing notification fired through `sonner`'s `toast`. -/
inductive Toast where
  | error : String → Toast
  | success : String → Toast
  | info : String → Toast
deriving DecidableEq, Repr

/-- The state held by the `Home` component: the shipment list, the id
being edited (or `none`), and the form draft. -/
structure AppState where
  shipments : List Shipment
  editingId : Option String
  formData : ShipmentFormData
deriving DecidableEq, Repr

/-- The initial component state. -/
def initialState : AppState :=
  { shipments := [], editingId := none, formData := emptyFormData }

/-- A field of the form, for `handleInputChange`. -/
inductive FormField where
  | length | width | height | weight | reference
deriving DecidableEq, Repr

/-- `handleInputChange`: store the raw string into one draft field. -/
def handleInputChange (f : FormField) (v : String) (st : AppState) : AppState :=
  { st with formData :=
    match f with
    | .length => { st.formData with length := v }
    | .width => { st.formData with width := v }
    | .height => { st.formData with height := v }
    | .weight => { st.formData with weight := v }
    | .reference => { st.formData with reference := v } }

/-- `validateForm`: empty-field check (JavaScript `!s` on a string is
truthiness, i.e. `s = ""`), then `isNaN` on the four parsed values,
then the `<= 0` check; returns the boolean result together with the
error toasts fired. -/
def validateForm (fd : ShipmentFormData) : Bool × List Toast :=
  if fd.length = "" ∨ fd.width = "" ∨ fd.height = "" ∨ fd.weight = "" then
    (false, [Toast.error "Please fill in all dimension and weight fields"])
  else
    let l := parseFloat fd.length
    let w := parseFloat fd.width
    let h := parseFloat fd.height
    let wt := parseFloat fd.weight
    if l.isNaN ∨ w.isNaN ∨ h.isNaN ∨ wt.isNaN then
      (false, [Toast.error "Dimensions and weight must be valid numbers"])
    else if l.leJS (.fin 0) ∨ w.leJS (.fin 0) ∨ h.leJS (.fin 0) ∨ wt.leJS (.fin 0) then
      (false, [Toast.error "Dimensions and weight must be greater than zero"])
    else
      (true, [])

/-- The record built by `handleAddShipment` from the current draft:
`id` is `editingId || nanoid()` (JavaScript `||`: an empty string is
falsy), dimensions are `Math.ceil(parseFloat(...))`, weight is
`parseFloat` unrounded. `newId` stands for the `nanoid()` call. -/
def newShipmentOf (newId : String) (st : AppState) : Shipment :=
  { id :=
      match st.editingId with
      | some s => if s = "" then newId else s
      | none => newId,
    length := (parseFloat st.formData.length).ceil,
    width := (parseFloat st.formData.width).ceil,
    height := (parseFloat st.formData.height).ceil,
    weight := parseFloat st.formData.weight,
    reference := st.formData.reference }

/-- `handleAddShipment`: validate; on failure return unchanged. On
success build the new record, then either replace the record whose id
equals the (truthy) `editingId` and leave edit mode, or append the
record. Either way the draft is reset. Returns the new state together
with the toasts fired. -/
def handleAddShipment (newId : String) (st : AppState) : AppState × List Toast :=
  match validateForm st.formData with
  | (false, ts) => (st, ts)
  | (true, ts) =>
    let newShipment := newShipmentOf newId st
    match st.editingId with
    | some eid =>
      if eid = "" then
        ({ st with shipments := st.shipments ++ [newShipment], formData := emptyFormData },
         ts ++ [Toast.success "Package added"])
      else
        ({ st with
            shipments := st.shipments.map fun s => if s.id = eid then newShipment else s,
            editingId := none,
            formData := emptyFormData },
         ts ++ [Toast.success "Package updated"])
    | none =>
      ({ st with shipments := st.shipments ++ [newShipment], formData := emptyFormData },
       ts ++ [Toast.success "Package added"])

/-- The draft `handleEdit` populates from a shipment's current values
(number fields go through `toString`). -/
def draftOfShipment (sh : Shipment) : ShipmentFormData :=
  { length := jsToString sh.length,
    width := jsToString sh.width,
    height := jsToString sh.height,
    weight := jsToString sh.weight,
    reference := sh.reference }

/-- `handleEdit`: populate the draft from the given shipment and mark
it as the one being edited. -/
def handleEdit (sh : Shipment) (st : AppState) : AppState × List Toast :=
  ({ st with formData := draftOfShipment sh, editingId := some sh.id },
   [Toast.info "Editing package"])

/-- `handleDelete`: drop every record with the given id; if that id
was being edited, leave edit mode. The draft is NOT touched. -/
def handleDelete (id : String) (st : AppState) : AppState × List Toast :=
  ({ st with
      shipments := st.shipments.filter fun s => s.id ≠ id,
      editingId := if st.editingId = some id then none else st.editingId },
   [Toast.success "Package removed"])

/-- The Cancel button's `onClick` (rendered only while editing):
leave edit mode and reset the draft; the list is untouched. -/
def handleCancel (st : AppState) : AppState × List Toast :=
  ({ st with editingId := none, formData := emptyFormData },
   [Toast.info "Editing cancelled"])

/-- CSV-quotes a field: wrap in double quotes, doubling inner quotes,
when it contains a comma, quote or newline. Modelled from the spec:
`src/lib/csv.ts` is not among the provided sources; §4.3 and §6 of the
spec prescribe standard CSV escaping. -/
def csvField (s : String) : String :=
  if s.data.any (fun c => c = ',' ∨ c = '"' ∨ c = '\n') then
    "\"" ++ ⟨s.data.foldr (fun c acc => if c = '"' then '"' :: '"' :: acc else c :: acc) []⟩ ++ "\""
  else s

/-- Modelled from the spec: the `generateCSV` helper of `src/lib/csv.ts`
is not among the provided sources. Per §4.3/§6 it is a pure function
producing a header row plus one row per shipment, in list order, with
fields length, width, height, weight, reference. -/
def generateCSV (shipments : List Shipment) : String :=
  "length,width,height,weight,reference"
    ++ String.join (shipments.map fun s =>
        "\n" ++ jsToString s.length ++ "," ++ jsToString s.width ++ ","
          ++ jsToString s.height ++ "," ++ jsToString s.weight ++ ","
          ++ csvField s.reference)

/-- `handleGenerateCSV`: on an empty list fire an error toast and do
nothing else; otherwise produce the CSV text and trigger a download
(modelled as the returned `Option (text, filename)`). `today` stands
for `new Date().toISOString().split('T')[0]`. -/
def handleGenerateCSV (today : String) (st : AppState) :
    AppState × List Toast × Option (String × String) :=
  if st.shipments.length = 0 then
    (st, [Toast.error "Add at least one package to generate CSV"], none)
  else
    let csv := generateCSV st.shipments
    (st,
     [Toast.success ("CSV downloaded with " ++ toString st.shipments.length
        ++ " package" ++ (if st.shipments.length > 1 then "s" else ""))],
     some (csv, "fedex_shipments_" ++ today ++ ".csv"))

/-- `handleClearAll`: a no-op on an empty list; otherwise empty the
list and leave edit mode when the user confirms (`ok` stands for the
`confirm(...)` dialog's answer), no-op when they refuse. The draft is
not touched. -/
def handleClearAll (ok : Bool) (st : AppState) : AppState × List Toast :=
  if st.shipments.length = 0 then (st, [])
  else if ok then
    ({ st with shipments := [], editingId := none }, [Toast.success "All packages cleared"])
  else (st, [])

/-- One UI event, as a relation between component states. In the
`add` step, `newId` stands for the `nanoid()` call; its hypotheses
model the id generator's contract (a fresh, non-empty id). -/
inductive Step : AppState → AppState → Prop where
  | add (newId : String) (st : AppState) : newId ≠ "" →
      (∀ s ∈ st.shipments, s.id ≠ newId) → Step st (handleAddShipment newId st).1
  | edit (sh : Shipment) (st : AppState) : sh ∈ st.shipments →
      Step st (handleEdit sh st).1
  | delete (id : String) (st : AppState) : Step st (handleDelete id st).1
  | cancel (st : AppState) : Step st (handleCancel st).1
  | clearAll (ok : Bool) (st : AppState) : Step st (handleClearAll ok st).1
  | generate (today : String) (st : AppState) :
      Step st (handleGenerateCSV today st).1
  | input (f : FormField) (v : String) (st : AppState) :
      Step st (handleInputChange f v st)

/-- The states reachable from the initial state by UI events. -/
inductive Reachable : AppState → Prop where
  | init : Reachable initialState
  | step {st st' : AppState} : Reachable st → Step st st' → Reachable st'

/-- A concrete shipment used by the concrete-input theorems: the
record produced by submitting the draft
`{length:"12", width:"8", height:"6", weight:"5.5", reference:"INV-12345"}`. -/
def sampleShipment : Shipment :=
  { id := "a1", length := .fin 12, width := .fin 8, height := .fin 6,
    weight := .fin (mkRat 11 2), reference := "INV-12345" }

/-- The state after adding `sampleShipment` to the empty list. -/
def sampleAddedState : AppState :=
  { shipments := [sampleShipment], editingId := none, formData := emptyFormData }

/-- `sampleAddedState` while `sampleShipment` is being edited. -/
def sampleEditingState : AppState :=
  { shipments := [sampleShipment], editingId := some "a1",
    formData := draftOfShipment sampleShipment }

example : draftOfShipment sampleShipment =
    { length := "12", width := "8", height := "6", weight := "5.5",
      reference := "INV-12345" } := by decide

lemma length_filter_ne_of_mem {l : List Shipment} {id : String}
    (hnd : (l.map Shipment.id).Nodup) (hmem : ∃ s ∈ l, s.id = id) :
    (l.filter fun s => s.id ≠ id).length + 1 = l.length := by
  induction l with
  | nil => simp at hmem
  | cons a l ih =>
    rw [List.map_cons, List.nodup_cons] at hnd
    obtain ⟨hna, hnd'⟩ := hnd
    by_cases h : a.id = id
    · subst h
      have hall : ∀ s ∈ l, ¬s.id = a.id := by
        intro s hs he
        exact hna (he ▸ List.mem_map_of_mem Shipment.id hs)
      rw [List.filter_cons_of_neg (by simp)]
      rw [List.filter_eq_self.mpr (by intro s hs; simpa using hall s hs)]
      simp
    · rw [List.filter_cons_of_pos (by simpa using h)]
      have hmem' : ∃ s ∈ l, s.id = id := by
        obtain ⟨s, hs, he⟩ := hmem
        rcases List.mem_cons.mp hs with rfl | hs'
        · exact absurd he h
        · exact ⟨s, hs', he⟩
      have := ih hnd' hmem'
      simp only [List.length_cons]
      omega

/-- C4: deleting by id removes exactly one record when the id is
present (the store's ids being unique), and is a no-op on the list
when it is absent. -/
theorem delete_removes_exactly_one (st : AppState) (id : String)
    (hnd : (st.shipments.map Shipment.id).Nodup) :
    ((∃ s ∈ st.shipments, s.id = id) →
      (handleDelete id st).1.shipments.length + 1 = st.shipments.length) ∧
    ((∀ s ∈ st.shipments, s.id ≠ id) →
      (handleDelete id st).1.shipments = st.shipments) := by
  constructor
  · intro hmem
    exact length_filter_ne_of_mem hnd hmem
  · intro habs
    simp only [handleDelete]
    exact List.filter_eq_self.mpr (by intro s hs; simpa using habs s hs)

theorem delete_removes_exactly_one_witness :
    ((sampleAddedState.shipments.map Shipment.id).Nodup ∧
      (∃ s ∈ sampleAddedState.shipments, s.id = "a1") ∧
      (handleDelete "a1" sampleAddedState).1.shipments.length + 1 =
        sampleAddedState.shipments.length ∧
      (∀ s ∈ sampleAddedState.shipments, s.id ≠ "zz") ∧
      (handleDelete "zz" sampleAddedState).1.shipments = sampleAddedState.shipments) := by
  refine ⟨by decide, by decide, ?_, by decide, ?_⟩
  · exact (delete_removes_exactly_one sampleAddedState "a1" (by decide)).1 (by decide)
  · exact (delete_removes_exactly_one sampleAddedState "zz" (by decide)).2 (by decide)

/-- C5 counterexample: deleting the record being edited does leave
edit mode, but the form draft is NOT cleared — `handleDelete` never
touches `formData`, so the draft keeps the deleted record's values. -/
theorem delete_while_editing_keeps_draft_cex :
    (handleDelete "a1" sampleEditingState).1.editingId = none ∧
    (handleDelete "a1" sampleEditingState).1.formData = draftOfShipment sampleShipment ∧
    draftOfShipment sampleShipment ≠ emptyFormData := by decide

/-- C5 (amended): deleting the id being edited removes the record and
transitions to idle, but the form draft is left unchanged (it is not
cleared). -/
theorem delete_while_editing_goes_idle_draft_kept (st : AppState) (id : String)
    (h : st.editingId = some id) :
    (handleDelete id st).1.editingId = none ∧
    (handleDelete id st).1.formData = st.formData ∧
    (handleDelete id st).1.shipments = st.shipments.filter (fun s => s.id ≠ id) := by
  refine ⟨?_, rfl, rfl⟩
  simp [handleDelete, h]

theorem delete_while_editing_goes_idle_draft_kept_witness :
    (sampleEditingState.editingId = some "a1" ∧
      (handleDelete "a1" sampleEditingState).1.editingId = none ∧
      (handleDelete "a1" sampleEditingState).1.formData = sampleEditingState.formData ∧
      (handleDelete "a1" sampleEditingState).1.shipments =
        sampleEditingState.shipments.filter (fun s => s.id ≠ "a1")) :=
  ⟨rfl, delete_while_editing_goes_idle_draft_kept sampleEditingState "a1" rfl⟩

/-- C6: while editing, Cancel transitions to idle, resets all five
draft fields to the empty string, and leaves the shipment list
exactly unchanged. -/
theorem cancel_goes_idle_clears_draft_store_untouched (st : AppState) (id : String)
    (h : st.editingId = some id) :
    (handleCancel st).1.editingId = none ∧
    (handleCancel st).1.formData = emptyFormData ∧
    (handleCancel st).1.shipments = st.shipments :=
  ⟨rfl, rfl, rfl⟩

theorem cancel_goes_idle_clears_draft_store_untouched_witness :
    (sampleEditingState.editingId = some "a1" ∧
      (handleCancel sampleEditingState).1.editingId = none ∧
      (handleCancel sampleEditingState).1.formData = emptyFormData ∧
      (handleCancel sampleEditingState).1.shipments = sampleEditingState.shipments) :=
  ⟨rfl, cancel_goes_idle_clears_draft_store_untouched sampleEditingState "a1" rfl⟩

/-- C7: invoking CSV export on an empty collection fires an error
toast and does nothing else: the state (and so the collection) is
unchanged and no `(csv, filename)` download is produced. -/
theorem generate_csv_empty_is_error_noop (st : AppState) (today : String)
    (h : st.shipments = []) :
    handleGenerateCSV today st =
      (st, [Toast.error "Add at least one package to generate CSV"], none) := by
  simp [handleGenerateCSV, h]

theorem generate_csv_empty_is_error_noop_witness :
    (initialState.shipments = [] ∧
      handleGenerateCSV "2026-10-11" initialState =
        (initialState, [Toast.error "Add at least one package to generate CSV"], none)) :=
  ⟨rfl, generate_csv_empty_is_error_noop initialState "2026-10-11" rfl⟩

/-- `Rat.ceil` (used by the embedding of `Math.ceil`) computes the
mathematical ceiling. -/
lemma ratCeil_eq_ceil (q : ℚ) : q.ceil = ⌈q⌉ := by
  unfold Rat.ceil
  by_cases h : q.den = 1
  · rw [if_pos h]
    conv_rhs => rw [← (Rat.den_eq_one_iff q).mp h]
    rw [Int.ceil_intCast]
  · rw [if_neg h, ← Rat.floor_def]
    have hne : ((⌊q⌋ : ℤ) : ℚ) ≠ q := by
      intro he
      exact h (by rw [← he]; exact Rat.den_intCast _)
    symm
    rw [Int.ceil_eq_iff]
    constructor
    · push_cast
      simpa using lt_of_le_of_ne (Int.floor_le q) hne
    · push_cast
      exact le_of_lt (Int.lt_floor_add_one q)

/-- `Math.ceil` on a finite JavaScript number is the integer ceiling. -/
lemma JSNum.ceil_fin (q : ℚ) : (JSNum.fin q).ceil = .fin ((⌈q⌉ : ℤ) : ℚ) := by
  simp [JSNum.ceil, ratCeil_eq_ceil]

lemma parseFloat_empty_string : parseFloat "" = .nan := rfl

lemma JSNum.pos_isNaN {v : JSNum} (h : v.pos = true) : v.isNaN = false := by
  cases v <;> simp_all [JSNum.pos, JSNum.isNaN]

lemma JSNum.pos_not_le_zero {v : JSNum} (h : v.pos = true) :
    v.leJS (.fin 0) = false := by
  cases v <;> simp_all [JSNum.pos, JSNum.leJS]

lemma JSNum.not_le_zero_pos {v : JSNum} (hnan : v.isNaN = false)
    (h : v.leJS (.fin 0) = false) : v.pos = true := by
  cases v <;> simp_all [JSNum.pos, JSNum.isNaN, JSNum.leJS]

lemma pos_parse_ne_empty {s : String} (h : (parseFloat s).pos = true) : s ≠ "" := by
  intro he
  rw [he, parseFloat_empty_string] at h
  simp [JSNum.pos] at h

/-- A draft whose four numeric fields parse to strictly positive
values passes validation with no toast. -/
lemma validateForm_of_pos {fd : ShipmentFormData}
    (hl : (parseFloat fd.length).pos = true) (hw : (parseFloat fd.width).pos = true)
    (hh : (parseFloat fd.height).pos = true) (hwt : (parseFloat fd.weight).pos = true) :
    validateForm fd = (true, []) := by
  rw [validateForm]
  rw [if_neg (by
    push_neg
    exact ⟨pos_parse_ne_empty hl, pos_parse_ne_empty hw,
      pos_parse_ne_empty hh, pos_parse_ne_empty hwt⟩)]
  rw [if_neg (by
    simp [JSNum.pos_isNaN hl, JSNum.pos_isNaN hw, JSNum.pos_isNaN hh, JSNum.pos_isNaN hwt])]
  rw [if_neg (by
    simp [JSNum.pos_not_le_zero hl, JSNum.pos_not_le_zero hw,
      JSNum.pos_not_le_zero hh, JSNum.pos_not_le_zero hwt])]

/-- A validation result is either a clean pass or a single error toast. -/
lemma validateForm_shape (fd : ShipmentFormData) :
    validateForm fd = (true, []) ∨ ∃ msg, validateForm fd = (false, [Toast.error msg]) := by
  rw [validateForm]
  split
  · exact Or.inr ⟨_, rfl⟩
  · dsimp only
    split
    · exact Or.inr ⟨_, rfl⟩
    · split
      · exact Or.inr ⟨_, rfl⟩
      · exact Or.inl rfl

/-- A failed validation always reports exactly one error toast. -/
lemma validateForm_false_toast {fd : ShipmentFormData}
    (h : (validateForm fd).1 = false) :
    ∃ msg, validateForm fd = (false, [Toast.error msg]) := by
  rcases validateForm_shape fd with he | ⟨msg, he⟩
  · rw [he] at h
    simp at h
  · exact ⟨msg, he⟩

/-- Validation passes iff the four numeric fields are non-empty and
their parsed values are strictly positive (in the JavaScript order
sense, so `Infinity` passes). -/
lemma validateForm_true_iff (fd : ShipmentFormData) :
    (validateForm fd).1 = true ↔
      (fd.length ≠ "" ∧ fd.width ≠ "" ∧ fd.height ≠ "" ∧ fd.weight ≠ "" ∧
       (parseFloat fd.length).pos = true ∧ (parseFloat fd.width).pos = true ∧
       (parseFloat fd.height).pos = true ∧ (parseFloat fd.weight).pos = true) := by
  constructor
  · intro h
    rw [validateForm] at h
    split at h
    · simp at h
    · rename_i hne
      dsimp only at h
      push_neg at hne
      split at h
      · simp at h
      · rename_i hnan
        push_neg at hnan
        simp only [Bool.not_eq_true] at hnan
        split at h
        · simp at h
        · rename_i hle
          push_neg at hle
          simp only [Bool.not_eq_true] at hle
          exact ⟨hne.1, hne.2.1, hne.2.2.1, hne.2.2.2,
            JSNum.not_le_zero_pos hnan.1 hle.1,
            JSNum.not_le_zero_pos hnan.2.1 hle.2.1,
            JSNum.not_le_zero_pos hnan.2.2.1 hle.2.2.1,
            JSNum.not_le_zero_pos hnan.2.2.2 hle.2.2.2⟩
  · rintro ⟨-, -, -, -, hl, hw, hh, hwt⟩
    rw [validateForm_of_pos hl hw hh hwt]

/-- A draft whose length field is the string `"Infinity"`. -/
def infinityDraft : ShipmentFormData :=
  { length := "Infinity", width := "1", height := "1", weight := "1", reference := "" }

/-- C1 counterexample: the draft with `length = "Infinity"` has a
numeric field that does not parse to a finite number, yet validation
accepts it (`parseFloat("Infinity")` is `Infinity`, `isNaN` is false
and `Infinity <= 0` is false) and submitting appends a record, so the
collection does not stay unchanged. -/
theorem validation_accepts_infinity_cex :
    (parseFloat infinityDraft.length).isFinite = false ∧
    (validateForm infinityDraft).1 = true ∧
    (handleAddShipment "n1"
      { shipments := [], editingId := none, formData := infinityDraft }).1.shipments.length
      = 1 := by decide

/-- C1 (amended): validation accepts a draft iff its four numeric
fields are non-empty and parse to strictly positive values — where
`Infinity` counts as strictly positive although it is not finite; and
whenever validation fails, submitting reports exactly one error toast
and returns the state (hence the shipment collection) unchanged. -/
theorem invalid_submit_rejected_store_unchanged :
    (∀ fd : ShipmentFormData, (validateForm fd).1 = true ↔
      (fd.length ≠ "" ∧ fd.width ≠ "" ∧ fd.height ≠ "" ∧ fd.weight ≠ "" ∧
       (parseFloat fd.length).pos = true ∧ (parseFloat fd.width).pos = true ∧
       (parseFloat fd.height).pos = true ∧ (parseFloat fd.weight).pos = true)) ∧
    (∀ (newId : String) (st : AppState), (validateForm st.formData).1 = false →
      (handleAddShipment newId st).1 = st ∧
      ∃ msg, (handleAddShipment newId st).2 = [Toast.error msg]) := by
  constructor
  · exact validateForm_true_iff
  · intro newId st h
    obtain ⟨msg, he⟩ := validateForm_false_toast h
    rw [handleAddShipment, he]
    exact ⟨rfl, msg, rfl⟩

theorem invalid_submit_rejected_store_unchanged_witness :
    ((validateForm emptyFormData).1 = false ∧
      (handleAddShipment "n1" initialState).1 = initialState ∧
      (∃ msg, (handleAddShipment "n1" initialState).2 = [Toast.error msg]) ∧
      ((validateForm (draftOfShipment sampleShipment)).1 = true ↔
        (draftOfShipment sampleShipment).length ≠ "" ∧
        (draftOfShipment sampleShipment).width ≠ "" ∧
        (draftOfShipment sampleShipment).height ≠ "" ∧
        (draftOfShipment sampleShipment).weight ≠ "" ∧
        (parseFloat (draftOfShipment sampleShipment).length).pos = true ∧
        (parseFloat (draftOfShipment sampleShipment).width).pos = true ∧
        (parseFloat (draftOfShipment sampleShipment).height).pos = true ∧
        (parseFloat (draftOfShipment sampleShipment).weight).pos = true)) := by
  obtain ⟨hiff, hrej⟩ := invalid_submit_rejected_store_unchanged
  obtain ⟨h1, h2⟩ := hrej "n1" initialState (by decide)
  exact ⟨by decide, h1, h2, hiff (draftOfShipment sampleShipment)⟩

/-- C2: while not editing, submitting a draft whose four numeric
fields parse to strictly positive values appends exactly one record:
dimensions are the ceilings of the parsed values, weight is the
parsed value unrounded, reference is the draft's reference string,
and the id is the freshly generated one. -/
theorem add_appends_ceiled_record (newId : String) (st : AppState)
    (hid : st.editingId = none)
    (hl : (parseFloat st.formData.length).pos = true)
    (hw : (parseFloat st.formData.width).pos = true)
    (hh : (parseFloat st.formData.height).pos = true)
    (hwt : (parseFloat st.formData.weight).pos = true) :
    (handleAddShipment newId st).1.shipments =
      st.shipments ++
        [{ id := newId,
           length := (parseFloat st.formData.length).ceil,
           width := (parseFloat st.formData.width).ceil,
           height := (parseFloat st.formData.height).ceil,
           weight := parseFloat st.formData.weight,
           reference := st.formData.reference }] ∧
    (handleAddShipment newId st).1.shipments.length = st.shipments.length + 1 := by
  have hv := validateForm_of_pos hl hw hh hwt
  have he : (handleAddShipment newId st).1.shipments =
      st.shipments ++ [newShipmentOf newId st] := by
    rw [handleAddShipment, hv, hid]
  rw [he, newShipmentOf, hid]
  exact ⟨rfl, by simp⟩

/-- The pre-submission state for the worked example of spec §8. -/
def sampleDraftState : AppState :=
  { shipments := [], editingId := none,
    formData := { length := "12", width := "8", height := "6", weight := "5.5",
                  reference := "INV-12345" } }

theorem add_appends_ceiled_record_witness :
    (sampleDraftState.editingId = none ∧
      (parseFloat sampleDraftState.formData.length).pos = true ∧
      (parseFloat sampleDraftState.formData.width).pos = true ∧
      (parseFloat sampleDraftState.formData.height).pos = true ∧
      (parseFloat sampleDraftState.formData.weight).pos = true ∧
      (handleAddShipment "a1" sampleDraftState).1.shipments =
        sampleDraftState.shipments ++
          [{ id := "a1",
             length := (parseFloat sampleDraftState.formData.length).ceil,
             width := (parseFloat sampleDraftState.formData.width).ceil,
             height := (parseFloat sampleDraftState.formData.height).ceil,
             weight := parseFloat sampleDraftState.formData.weight,
             reference := sampleDraftState.formData.reference }] ∧
      (handleAddShipment "a1" sampleDraftState).1.shipments.length =
        sampleDraftState.shipments.length + 1) := by
  obtain ⟨h1, h2⟩ := add_appends_ceiled_record "a1" sampleDraftState rfl
    (by decide) (by decide) (by decide) (by decide)
  exact ⟨rfl, by decide, by decide, by decide, by decide, h1, h2⟩

/-- C3: submitting a valid draft while editing id replaces in place:
the list keeps its length; every position whose record has a
different id is untouched; the position holding id receives the new
field values; and the new record keeps id (no fresh id is minted). -/
theorem update_preserves_length_position_frame (newId : String) (st : AppState)
    (id : String) (hid : st.editingId = some id) (hne : id ≠ "")
    (hv : (validateForm st.formData).1 = true)
    (hmem : ∃ s ∈ st.shipments, s.id = id) :
    (handleAddShipment newId st).1.shipments.length = st.shipments.length ∧
    (∀ (k : Nat) (hk : k < st.shipments.length),
      ((st.shipments.get ⟨k, hk⟩).id ≠ id →
        (handleAddShipment newId st).1.shipments[k]? =
          some (st.shipments.get ⟨k, hk⟩)) ∧
      ((st.shipments.get ⟨k, hk⟩).id = id →
        (handleAddShipment newId st).1.shipments[k]? =
          some (newShipmentOf newId st))) ∧
    (newShipmentOf newId st).id = id := by
  have he : validateForm st.formData = (true, []) := by
    rcases validateForm_shape st.formData with h | ⟨msg, h⟩
    · exact h
    · rw [h] at hv
      simp at hv
  have hs : (handleAddShipment newId st).1.shipments =
      st.shipments.map fun s => if s.id = id then newShipmentOf newId st else s := by
    rw [handleAddShipment, he, hid]
    dsimp only
    rw [if_neg hne]
  refine ⟨by rw [hs]; exact List.length_map _ _, ?_, ?_⟩
  · intro k hk
    have hgk : st.shipments[k]? = some (st.shipments.get ⟨k, hk⟩) :=
      List.getElem?_eq_getElem hk
    constructor
    · intro hne'
      simp only [List.get_eq_getElem] at hne' hgk
      rw [hs, List.getElem?_map, hgk]
      simp [hne']
    · intro heq
      simp only [List.get_eq_getElem] at heq hgk
      rw [hs, List.getElem?_map, hgk]
      simp [heq]
  · rw [newShipmentOf, hid]
    simp [hne]

theorem update_preserves_length_position_frame_witness :
    (sampleEditingState.editingId = some "a1" ∧
      (validateForm sampleEditingState.formData).1 = true ∧
      (∃ s ∈ sampleEditingState.shipments, s.id = "a1") ∧
      (handleAddShipment "n2" sampleEditingState).1.shipments.length =
        sampleEditingState.shipments.length ∧
      (newShipmentOf "n2" sampleEditingState).id = "a1" ∧
      (handleAddShipment "n2" sampleEditingState).1.shipments[0]? =
        some (newShipmentOf "n2" sampleEditingState)) := by
  obtain ⟨h1, h2, h3⟩ := update_preserves_length_position_frame "n2" sampleEditingState
    "a1" rfl (by decide) (by decide) ⟨sampleShipment, by decide, rfl⟩
  exact ⟨rfl, by decide, ⟨sampleShipment, by decide, rfl⟩, h1, h3,
    (h2 0 (by decide)).2 (by decide)⟩

lemma JSNum.ceil_pos : ∀ {v : JSNum}, v.pos = true → v.ceil.pos = true
  | .posInf, _ => rfl
  | .nan, h => by simp [JSNum.pos] at h
  | .negInf, h => by simp [JSNum.pos] at h
  | .fin q, h => by
    simp only [JSNum.pos, decide_eq_true_eq] at h
    simp only [JSNum.ceil, JSNum.pos, decide_eq_true_eq]
    rw [ratCeil_eq_ceil]
    exact_mod_cast Int.ceil_pos.mpr h

/-- The record built from a draft that passes validation has strictly
positive dimensions and weight. -/
lemma newShipmentOf_fields_pos (newId : String) (st : AppState)
    (hv : (validateForm st.formData).1 = true) :
    (newShipmentOf newId st).length.pos = true ∧
    (newShipmentOf newId st).width.pos = true ∧
    (newShipmentOf newId st).height.pos = true ∧
    (newShipmentOf newId st).weight.pos = true := by
  obtain ⟨-, -, -, -, hl, hw, hh, hwt⟩ := (validateForm_true_iff _).mp hv
  exact ⟨JSNum.ceil_pos hl, JSNum.ceil_pos hw, JSNum.ceil_pos hh, hwt⟩

/-- The store invariant: every stored record has strictly positive
numeric fields and a non-empty id, and ids are pairwise distinct. -/
def StoreInv (st : AppState) : Prop :=
  (∀ s ∈ st.shipments, s.length.pos = true ∧ s.width.pos = true ∧
    s.height.pos = true ∧ s.weight.pos = true ∧ s.id ≠ "") ∧
  (st.shipments.map Shipment.id).Nodup

lemma storeInv_append {st : AppState} {newId : String} {new : Shipment}
    (hne : newId ≠ "") (hfresh : ∀ s ∈ st.shipments, s.id ≠ newId)
    (hpos4 : new.length.pos = true ∧ new.width.pos = true ∧
      new.height.pos = true ∧ new.weight.pos = true)
    (hid : new.id = newId) (hI : StoreInv st) :
    (∀ s ∈ st.shipments ++ [new], s.length.pos = true ∧ s.width.pos = true ∧
      s.height.pos = true ∧ s.weight.pos = true ∧ s.id ≠ "") ∧
    ((st.shipments ++ [new]).map Shipment.id).Nodup := by
  obtain ⟨hpos, hnd⟩ := hI
  constructor
  · intro s hs
    rcases List.mem_append.mp hs with hs | hs
    · exact hpos s hs
    · rw [List.mem_singleton.mp hs, hid]
      exact ⟨hpos4.1, hpos4.2.1, hpos4.2.2.1, hpos4.2.2.2, hne⟩
  · rw [List.map_append, List.map_singleton, hid, List.nodup_append]
    refine ⟨hnd, List.nodup_singleton _, ?_⟩
    intro a ha hb
    obtain ⟨s, hs, rfl⟩ := List.mem_map.mp ha
    exact hfresh s hs (List.mem_singleton.mp hb)

lemma handleAdd_preserves_inv (newId : String) (st : AppState)
    (hne : newId ≠ "") (hfresh : ∀ s ∈ st.shipments, s.id ≠ newId)
    (hI : StoreInv st) : StoreInv (handleAddShipment newId st).1 := by
  obtain ⟨hpos, hnd⟩ := hI
  rcases validateForm_shape st.formData with hv | ⟨msg, hv⟩
  · have hP := newShipmentOf_fields_pos newId st (by rw [hv])
    rw [handleAddShipment, hv]
    cases hed : st.editingId with
    | none =>
      dsimp only
      refine storeInv_append hne hfresh hP ?_ ⟨hpos, hnd⟩
      rw [newShipmentOf, hed]
    | some eid =>
      dsimp only
      by_cases he : eid = ""
      · rw [if_pos he]
        refine storeInv_append hne hfresh hP ?_ ⟨hpos, hnd⟩
        rw [newShipmentOf, hed]
        simp [he]
      · rw [if_neg he]
        have hidnew : (newShipmentOf newId st).id = eid := by
          rw [newShipmentOf, hed]
          simp [he]
        have hids : ((st.shipments.map fun s =>
            if s.id = eid then newShipmentOf newId st else s).map Shipment.id)
            = st.shipments.map Shipment.id := by
          rw [List.map_map]
          refine List.map_congr_left ?_
          intro s hs
          by_cases h : s.id = eid
          · simp [Function.comp, h, hidnew]
          · simp [Function.comp, h]
        refine ⟨?_, by rw [hids]; exact hnd⟩
        intro s' hs'
        obtain ⟨s, hs, rfl⟩ := List.mem_map.mp hs'
        by_cases h : s.id = eid
        · rw [if_pos h]
          exact ⟨hP.1, hP.2.1, hP.2.2.1, hP.2.2.2, by rw [hidnew]; exact h ▸ (hpos s hs).2.2.2.2⟩
        · rw [if_neg h]
          exact hpos s hs
  · rw [handleAddShipment, hv]
    exact ⟨hpos, hnd⟩

/-- Every reachable state satisfies the store invariant. -/
lemma reachable_store_inv {st : AppState} (h : Reachable st) : StoreInv st := by
  induction h with
  | init => exact ⟨by simp [initialState], by simp [initialState]⟩
  | @step st st' hr hs ih =>
    obtain ⟨hpos, hnd⟩ := ih
    cases hs with
    | add newId u1 hne hfresh => exact handleAdd_preserves_inv newId st hne hfresh ⟨hpos, hnd⟩
    | edit sh u2 hmem => exact ⟨hpos, hnd⟩
    | delete id u3 =>
      refine ⟨?_, ?_⟩
      · intro s hs
        exact hpos s (List.mem_of_mem_filter hs)
      · exact hnd.sublist ((List.filter_sublist _).map Shipment.id)
    | cancel u4 => exact ⟨hpos, hnd⟩
    | clearAll ok u5 =>
      rw [handleClearAll]
      split
      · exact ⟨hpos, hnd⟩
      · split
        · exact ⟨by simp, by simp⟩
        · exact ⟨hpos, hnd⟩
    | generate today u6 =>
      rw [handleGenerateCSV]
      split
      · exact ⟨hpos, hnd⟩
      · exact ⟨hpos, hnd⟩
    | input f v u7 => exact ⟨hpos, hnd⟩

lemma sampleDraftState_reachable : Reachable sampleDraftState := by
  have h0 : Reachable initialState := Reachable.init
  have h1 : Reachable (handleInputChange .length "12" initialState) :=
    h0.step (Step.input _ _ _)
  have h2 : Reachable (handleInputChange .width "8"
      (handleInputChange .length "12" initialState)) := h1.step (Step.input _ _ _)
  have h3 : Reachable (handleInputChange .height "6"
      (handleInputChange .width "8" (handleInputChange .length "12" initialState))) :=
    h2.step (Step.input _ _ _)
  have h4 : Reachable (handleInputChange .weight "5.5" (handleInputChange .height "6"
      (handleInputChange .width "8" (handleInputChange .length "12" initialState)))) :=
    h3.step (Step.input _ _ _)
  have h5 : Reachable (handleInputChange .reference "INV-12345"
      (handleInputChange .weight "5.5" (handleInputChange .height "6"
        (handleInputChange .width "8" (handleInputChange .length "12" initialState))))) :=
    h4.step (Step.input _ _ _)
  have he : handleInputChange .reference "INV-12345"
      (handleInputChange .weight "5.5" (handleInputChange .height "6"
        (handleInputChange .width "8" (handleInputChange .length "12" initialState))))
      = sampleDraftState := by decide
  exact he ▸ h5

lemma sampleAddedState_reachable : Reachable sampleAddedState := by
  have h6 : Reachable (handleAddShipment "a1" sampleDraftState).1 :=
    sampleDraftState_reachable.step (Step.add "a1" sampleDraftState (by decide) (by decide))
  have he : (handleAddShipment "a1" sampleDraftState).1 = sampleAddedState := by decide
  exact he ▸ h6

lemma sampleEditingState_reachable : Reachable sampleEditingState := by
  have h7 : Reachable (handleEdit sampleShipment sampleAddedState).1 :=
    sampleAddedState_reachable.step (Step.edit sampleShipment sampleAddedState (by decide))
  have he : (handleEdit sampleShipment sampleAddedState).1 = sampleEditingState := by decide
  exact he ▸ h7

/-- C9: in every state reachable from the empty store by UI events,
every stored shipment has strictly positive length, width, height and
weight, and no two stored shipments share an id. -/
theorem reachable_store_positive_unique_ids (st : AppState) (h : Reachable st) :
    (∀ s ∈ st.shipments, s.length.pos = true ∧ s.width.pos = true ∧
      s.height.pos = true ∧ s.weight.pos = true) ∧
    (st.shipments.map Shipment.id).Nodup := by
  obtain ⟨hpos, hnd⟩ := reachable_store_inv h
  exact ⟨fun s hs => ⟨(hpos s hs).1, (hpos s hs).2.1, (hpos s hs).2.2.1,
    (hpos s hs).2.2.2.1⟩, hnd⟩

theorem reachable_store_positive_unique_ids_witness :
    ((∀ s ∈ sampleAddedState.shipments, s.length.pos = true ∧ s.width.pos = true ∧
      s.height.pos = true ∧ s.weight.pos = true) ∧
    (sampleAddedState.shipments.map Shipment.id).Nodup) :=
  reachable_store_positive_unique_ids sampleAddedState sampleAddedState_reachable

/-- A second shipment, used to exercise edit redirection. -/
def sampleShipment2 : Shipment :=
  { id := "b2", length := .fin 3, width := .fin 4, height := .fin 5,
    weight := .fin 2, reference := "SO-67890" }

/-- C8: the component state holds at most one editing target (any two
stored records marked as being edited coincide), and clicking edit —
also while already editing another record — moves directly to editing
the clicked record, with the draft populated from its current values
and the store untouched (last-edit-wins, no intermediate idle
state). -/
theorem single_edit_mode_last_edit_wins (st : AppState) (h : Reachable st) :
    (∀ s1 ∈ st.shipments, ∀ s2 ∈ st.shipments,
      st.editingId = some s1.id → st.editingId = some s2.id → s1 = s2) ∧
    (∀ (prev : String) (sh : Shipment), st.editingId = some prev →
      (handleEdit sh st).1.editingId = some sh.id ∧
      (handleEdit sh st).1.formData = draftOfShipment sh ∧
      (handleEdit sh st).1.shipments = st.shipments) := by
  obtain ⟨-, hnd⟩ := reachable_store_inv h
  refine ⟨?_, fun prev sh _ => ⟨rfl, rfl, rfl⟩⟩
  intro s1 h1 s2 h2 he1 he2
  refine List.inj_on_of_nodup_map hnd h1 h2 ?_
  rw [he1] at he2
  exact Option.some_inj.mp he2

theorem single_edit_mode_last_edit_wins_witness :
    (sampleEditingState.editingId = some "a1" ∧
      (∀ s1 ∈ sampleEditingState.shipments, ∀ s2 ∈ sampleEditingState.shipments,
        sampleEditingState.editingId = some s1.id →
        sampleEditingState.editingId = some s2.id → s1 = s2) ∧
      (handleEdit sampleShipment2 sampleEditingState).1.editingId = some "b2" ∧
      (handleEdit sampleShipment2 sampleEditingState).1.formData =
        draftOfShipment sampleShipment2 ∧
      (handleEdit sampleShipment2 sampleEditingState).1.shipments =
        sampleEditingState.shipments) := by
  obtain ⟨h1, h2⟩ := single_edit_mode_last_edit_wins sampleEditingState
    sampleEditingState_reachable
  obtain ⟨h3, h4, h5⟩ := h2 "a1" sampleShipment2 rfl
  exact ⟨rfl, h1, h3, h4, h5⟩

lemma isDigit_toNat {c : Char} (h : isDigitChar c = true) :
    48 ≤ c.toNat ∧ c.toNat ≤ 57 := by
  simpa [isDigitChar] using h

lemma digit_not_ws {c : Char} (h : isDigitChar c = true) : isWSChar c = false := by
  obtain ⟨h1, h2⟩ := isDigit_toNat h
  simp only [isWSChar, decide_eq_false_iff_not]
  omega

lemma digit_ne_minus {c : Char} (h : isDigitChar c = true) : c ≠ '-' := by
  intro he
  subst he
  exact absurd (isDigit_toNat h).1 (by decide)

lemma digit_ne_plus {c : Char} (h : isDigitChar c = true) : c ≠ '+' := by
  intro he
  subst he
  exact absurd (isDigit_toNat h).1 (by decide)

lemma digit_ne_upperI {c : Char} (h : isDigitChar c = true) : c ≠ 'I' := by
  intro he
  subst he
  exact absurd (isDigit_toNat h).2 (by decide)

lemma point_not_digit : isDigitChar '.' = false := by decide

lemma splitSign_not_sign {c : Char} {cs : List Char} (h1 : c ≠ '-') (h2 : c ≠ '+') :
    splitSign (c :: cs) = (false, c :: cs) := by
  simp [splitSign, h1, h2]

lemma takeWhile_of_all {p : Char → Bool} :
    ∀ {xs : List Char}, (∀ c ∈ xs, p c = true) →
      xs.takeWhile p = xs ∧ xs.dropWhile p = []
  | [], _ => ⟨rfl, rfl⟩
  | x :: xs, h => by
    have hx : p x = true := h x (List.mem_cons_self x xs)
    have ih := takeWhile_of_all (fun c hc => h c (List.mem_cons_of_mem x hc))
    rw [List.takeWhile_cons, List.dropWhile_cons, if_pos hx, if_pos hx]
    exact ⟨by rw [ih.1], ih.2⟩

lemma takeWhile_append_stop {p : Char → Bool} {y : Char} {ys : List Char}
    (hy : p y = false) :
    ∀ {xs : List Char}, (∀ c ∈ xs, p c = true) →
      (xs ++ y :: ys).takeWhile p = xs ∧ (xs ++ y :: ys).dropWhile p = y :: ys
  | [], _ => by
    rw [List.nil_append, List.takeWhile_cons, List.dropWhile_cons, if_neg (by simp [hy]),
      if_neg (by simp [hy])]
    exact ⟨rfl, rfl⟩
  | x :: xs, h => by
    have hx : p x = true := h x (List.mem_cons_self x xs)
    have ih := @takeWhile_append_stop p y ys hy xs
      (fun c hc => h c (List.mem_cons_of_mem x hc))
    rw [List.cons_append, List.takeWhile_cons, List.dropWhile_cons, if_pos hx, if_pos hx]
    exact ⟨by rw [ih.1], ih.2⟩

lemma foldl_digitsVal (ds : List Char) :
    ∀ a : Nat, ds.foldl (fun x c => x * 10 + (c.toNat - 48)) a
      = a * 10 ^ ds.length + digitsVal ds := by
  induction ds with
  | nil => intro a; simp [digitsVal]
  | cons c ds ih =>
    intro a
    show ds.foldl _ (a * 10 + (c.toNat - 48)) = _
    rw [ih]
    have hd : digitsVal (c :: ds) = (c.toNat - 48) * 10 ^ ds.length + digitsVal ds := by
      show ds.foldl _ (0 * 10 + (c.toNat - 48)) = _
      rw [ih]
      ring_nf
    rw [hd, List.length_cons]
    ring

lemma digitsVal_append (xs ys : List Char) :
    digitsVal (xs ++ ys) = digitsVal xs * 10 ^ ys.length + digitsVal ys := by
  show (xs ++ ys).foldl _ 0 = _
  rw [List.foldl_append, foldl_digitsVal ys (xs.foldl _ 0)]
  rfl

lemma digitsVal_replicate_zero (j : Nat) :
    digitsVal (List.replicate j '0') = 0 := by
  induction j with
  | zero => rfl
  | succ j ih =>
    show (List.replicate (j + 1) '0').foldl _ 0 = 0
    rw [List.replicate_succ]
    simpa [digitsVal] using ih

lemma natToCharsAux_acc (fuel : Nat) : ∀ (n : Nat) (acc : List Char),
    natToCharsAux fuel n acc = natToCharsAux fuel n [] ++ acc := by
  induction fuel with
  | zero => intro n acc; rfl
  | succ f ih =>
    intro n acc
    simp only [natToCharsAux]
    by_cases h : n < 10
    · rw [if_pos h, if_pos h]
      rfl
    · rw [if_neg h, if_neg h, ih (n / 10) (Char.ofNat (48 + n % 10) :: acc),
        ih (n / 10) [Char.ofNat (48 + n % 10)], List.append_assoc]
      rfl

lemma ofNat_digit_facts : ∀ r < 10, isDigitChar (Char.ofNat (48 + r)) = true ∧
    (Char.ofNat (48 + r)).toNat - 48 = r := by decide

lemma natToCharsAux_spec : ∀ (fuel n : Nat), n < fuel →
    (∀ c ∈ natToCharsAux fuel n [], isDigitChar c = true) ∧
    digitsVal (natToCharsAux fuel n []) = n ∧ natToCharsAux fuel n [] ≠ [] := by
  intro fuel
  induction fuel with
  | zero => intro n h; omega
  | succ f ih =>
    intro n hn
    simp only [natToCharsAux]
    have hr : n % 10 < 10 := Nat.mod_lt _ (by norm_num)
    obtain ⟨hd, hv⟩ := ofNat_digit_facts (n % 10) hr
    have hone : digitsVal [Char.ofNat (48 + n % 10)] = n % 10 := by
      show 0 * 10 + _ = _
      simpa using hv
    by_cases h : n < 10
    · rw [if_pos h]
      refine ⟨?_, ?_, by simp⟩
      · intro c hc
        rw [List.mem_singleton.mp hc]
        exact hd
      · rw [hone]
        omega
    · rw [if_neg h]
      have h10 : n / 10 < f := by
        have := Nat.div_lt_self (by omega : 0 < n) (by norm_num : 1 < 10)
        omega
      obtain ⟨ihd, ihv, ihne⟩ := ih (n / 10) h10
      rw [natToCharsAux_acc f (n / 10) [Char.ofNat (48 + n % 10)]]
      refine ⟨?_, ?_, by simp⟩
      · intro c hc
        rcases List.mem_append.mp hc with hc | hc
        · exact ihd c hc
        · rw [List.mem_singleton.mp hc]
          exact hd
      · rw [digitsVal_append, hone, ihv]
        simp only [List.length_singleton, pow_one]
        omega

lemma natToChars_spec (n : Nat) :
    (∀ c ∈ natToChars n, isDigitChar c = true) ∧
    digitsVal (natToChars n) = n ∧ natToChars n ≠ [] :=
  natToCharsAux_spec (n + 1) n (Nat.lt_succ_self n)

lemma decValue_eq (intDs fracDs : List Char) (e0 : Int) :
    decValue intDs fracDs e0 =
      ((digitsVal intDs : ℚ) + (digitsVal fracDs : ℚ) / 10 ^ fracDs.length) * 10 ^ e0 := by
  unfold decValue
  have hne : ((10 : ℚ) ^ fracDs.length) ≠ 0 := by positivity
  have hmq : ((digitsVal intDs : ℚ) + (digitsVal fracDs : ℚ) / 10 ^ fracDs.length) =
      ((digitsVal intDs * 10 ^ fracDs.length + digitsVal fracDs : Nat) : ℚ)
        / 10 ^ fracDs.length := by
    push_cast
    field_simp
  rw [hmq]
  have hsplit : (10 : ℚ) ^ e0 = 10 ^ (e0 - fracDs.length) * 10 ^ (fracDs.length : Int) := by
    rw [← zpow_add₀ (by norm_num : (10 : ℚ) ≠ 0)]
    ring_nf
  by_cases he : (0 : ℤ) ≤ e0 - fracDs.length
  · rw [if_pos he, Rat.mkRat_eq_div]
    push_cast
    rw [div_one, hsplit]
    rw [← zpow_natCast (10 : ℚ) (e0 - (fracDs.length : Int)).toNat,
      Int.toNat_of_nonneg he, zpow_natCast (10 : ℚ) fracDs.length]
    field_simp
    ring
  · rw [if_neg he, Rat.mkRat_eq_div]
    push_cast
    rw [hsplit]
    have h2 : (10 : ℚ) ^ (e0 - (fracDs.length : Int)) =
        ((10 : ℚ) ^ (-(e0 - (fracDs.length : Int))).toNat)⁻¹ := by
      rw [← zpow_natCast (10 : ℚ) (-(e0 - (fracDs.length : Int))).toNat,
        Int.toNat_of_nonneg (by omega), zpow_neg, inv_inv]
    rw [h2, zpow_natCast (10 : ℚ) fracDs.length]
    have h3 : ((10 : ℚ) ^ (-(e0 - (fracDs.length : Int))).toNat) ≠ 0 := by positivity
    field_simp

lemma take8_ne_inf {c : Char} (hc : isDigitChar c = true) (cs : List Char) :
    ¬ ((c :: cs).take 8 = ['I', 'n', 'f', 'i', 'n', 'i', 't', 'y']) := by
  rw [List.take_succ_cons]
  intro h
  injection h with h1 h2
  rw [h1] at hc
  exact absurd hc (by decide)

lemma parseFloatChars_digits {ds : List Char}
    (hd : ∀ c ∈ ds, isDigitChar c = true) (hne : ds ≠ []) :
    parseFloatChars ds = .fin (digitsVal ds) := by
  obtain ⟨c, cs, rfl⟩ := List.exists_cons_of_ne_nil hne
  have hc := hd c (List.mem_cons_self c cs)
  have hws : (c :: cs).dropWhile isWSChar = c :: cs := by
    rw [List.dropWhile_cons, if_neg (by rw [digit_not_ws hc]; simp)]
  have hsg : splitSign (c :: cs) = (false, c :: cs) :=
    splitSign_not_sign (digit_ne_minus hc) (digit_ne_plus hc)
  have htw := takeWhile_of_all hd
  unfold parseFloatChars
  rw [hws]
  dsimp only
  rw [hsg]
  dsimp only
  rw [if_neg (take8_ne_inf hc cs), htw.1, htw.2]
  dsimp only
  rw [if_neg (by simp), decValue_eq]
  norm_num [parseExp, digitsVal]

lemma parseFloatChars_point {intDs fracDs : List Char}
    (hdi : ∀ c ∈ intDs, isDigitChar c = true) (hne : intDs ≠ [])
    (hdf : ∀ c ∈ fracDs, isDigitChar c = true) :
    parseFloatChars (intDs ++ '.' :: fracDs) =
      .fin ((digitsVal intDs : ℚ) + (digitsVal fracDs : ℚ) / 10 ^ fracDs.length) := by
  obtain ⟨c, cs, rfl⟩ := List.exists_cons_of_ne_nil hne
  have hc := hdi c (List.mem_cons_self c cs)
  have hws : ((c :: cs) ++ '.' :: fracDs).dropWhile isWSChar =
      (c :: cs) ++ '.' :: fracDs := by
    rw [List.cons_append, List.dropWhile_cons, if_neg (by rw [digit_not_ws hc]; simp)]
  have hsg : splitSign ((c :: cs) ++ '.' :: fracDs) = (false, (c :: cs) ++ '.' :: fracDs) := by
    rw [List.cons_append]
    exact splitSign_not_sign (digit_ne_minus hc) (digit_ne_plus hc)
  have htw := @takeWhile_append_stop isDigitChar '.' fracDs point_not_digit (c :: cs) hdi
  have htwf := takeWhile_of_all hdf
  unfold parseFloatChars
  rw [hws]
  dsimp only
  rw [hsg]
  dsimp only
  rw [if_neg (by rw [List.cons_append]; exact take8_ne_inf hc (cs ++ '.' :: fracDs))]
  rw [htw.1, htw.2]
  dsimp only
  rw [htwf.1, htwf.2]
  rw [if_neg (by simp), decValue_eq]
  norm_num [parseExp]

lemma powDivAux_exact {p m : Nat} (hp : 2 ≤ p) (hm : ¬ p ∣ m) (hm0 : m ≠ 0) :
    ∀ (a fuel : Nat), p ^ a * m ≤ fuel → powDivAux p fuel (p ^ a * m) = a := by
  intro a
  induction a with
  | zero =>
    intro fuel hf
    rw [pow_zero, one_mul] at hf ⊢
    cases fuel with
    | zero => omega
    | succ f =>
      show (if 2 ≤ p ∧ p ∣ m ∧ m ≠ 0 then _ else 0) = 0
      rw [if_neg]
      rintro ⟨-, hdvd, -⟩
      exact hm hdvd
  | succ a ih =>
    intro fuel hf
    have hpos : 0 < p ^ (a + 1) * m := by positivity
    cases fuel with
    | zero => omega
    | succ f =>
      show (if 2 ≤ p ∧ p ∣ p ^ (a + 1) * m ∧ p ^ (a + 1) * m ≠ 0
          then powDivAux p f (p ^ (a + 1) * m / p) + 1 else 0) = a + 1
      rw [if_pos ⟨hp, ⟨p ^ a * m, by ring⟩, by omega⟩]
      have hdiv : p ^ (a + 1) * m / p = p ^ a * m := by
        rw [show p ^ (a + 1) * m = p * (p ^ a * m) by ring]
        exact Nat.mul_div_cancel_left _ (by omega)
      have hlt : p ^ a * m < p ^ (a + 1) * m := by
        have h1 : 0 < p ^ a * m := by positivity
        calc p ^ a * m < 2 * (p ^ a * m) := by omega
          _ ≤ p * (p ^ a * m) := Nat.mul_le_mul_right _ hp
          _ = p ^ (a + 1) * m := by ring
      rw [hdiv, ih f (by omega)]

lemma powDiv_two_of (a b : Nat) : powDiv 2 (2 ^ a * 5 ^ b) = a := by
  have hm : ¬ (2 : Nat) ∣ 5 ^ b := by
    intro h
    have := Nat.Prime.dvd_of_dvd_pow Nat.prime_two h
    norm_num at this
  exact powDivAux_exact (by norm_num) hm (by positivity) a _ le_rfl

lemma powDiv_five_of (a b : Nat) : powDiv 5 (2 ^ a * 5 ^ b) = b := by
  have hm : ¬ (5 : Nat) ∣ 2 ^ a := by
    intro h
    have := Nat.Prime.dvd_of_dvd_pow Nat.prime_five h
    norm_num at this
  rw [show (2 : Nat) ^ a * 5 ^ b = 5 ^ b * 2 ^ a by ring, powDiv]
  rw [show (5 : Nat) ^ b * 2 ^ a = 5 ^ b * 2 ^ a by ring]
  exact powDivAux_exact (by norm_num) hm (by positivity) b _ le_rfl

/-- The rational `q` has a denominator of the form `2 ^ a * 5 ^ b`,
i.e. it has a finite decimal expansion. Every value `parseFloat`
produces from a plain decimal literal is of this shape. -/
def DecDen (q : ℚ) : Prop := ∃ a b : Nat, q.den = 2 ^ a * 5 ^ b

lemma den_dvd_ten_pow {q : ℚ} (hd : DecDen q) :
    q.den ∣ 10 ^ max (powDiv 2 q.den) (powDiv 5 q.den) := by
  obtain ⟨a, b, hab⟩ := hd
  rw [hab, powDiv_two_of, powDiv_five_of,
    show (10 : Nat) ^ max a b = 2 ^ max a b * 5 ^ max a b by
      rw [show (10 : Nat) = 2 * 5 by norm_num, mul_pow]]
  exact mul_dvd_mul (pow_dvd_pow 2 (le_max_left a b)) (pow_dvd_pow 5 (le_max_right a b))

lemma parseFloat_decCharsOf (N D : Nat) (hD : D ≠ 0)
    (hdvd : D ∣ 10 ^ max (powDiv 2 D) (powDiv 5 D)) :
    parseFloatChars (decCharsOf N D) = .fin ((N : ℚ) / (D : ℚ)) := by
  obtain ⟨c, hc⟩ := hdvd
  have hc0 : c ≠ 0 := by
    intro h
    rw [h, mul_zero] at hc
    exact absurd hc (by positivity)
  have hcdiv : 10 ^ max (powDiv 2 D) (powDiv 5 D) / D = c := by
    rw [hc]
    exact Nat.mul_div_cancel_left _ (Nat.pos_of_ne_zero hD)
  have hDq : (D : ℚ) ≠ 0 := Nat.cast_ne_zero.mpr hD
  have hcq : (c : ℚ) ≠ 0 := Nat.cast_ne_zero.mpr hc0
  have hval : ((N * c : Nat) : ℚ) / ((10 : ℚ) ^ max (powDiv 2 D) (powDiv 5 D)) =
      (N : ℚ) / (D : ℚ) := by
    rw [show ((10 : ℚ)) ^ max (powDiv 2 D) (powDiv 5 D) =
        ((10 ^ max (powDiv 2 D) (powDiv 5 D) : Nat) : ℚ) by push_cast; ring, hc]
    push_cast
    rw [mul_comm (D : ℚ) (c : ℚ), ← div_div, mul_div_assoc, div_self hcq, mul_one]
  obtain ⟨hdig, hdv, hne⟩ := natToChars_spec (N * c)
  unfold decCharsOf
  dsimp only
  rw [hcdiv]
  by_cases hk0 : max (powDiv 2 D) (powDiv 5 D) = 0
  · rw [if_pos hk0]
    rw [parseFloatChars_digits hdig hne, hdv]
    rw [hk0] at hval
    norm_num at hval
    congr 1
    push_cast
    exact hval
  · rw [if_neg hk0]
    have hlen1 : 1 ≤ (natToChars (N * c)).length := by
      cases h : natToChars (N * c) with
      | nil => exact absurd h hne
      | cons x xs => simp
    have hplen : (List.replicate
        (max (powDiv 2 D) (powDiv 5 D) + 1 - (natToChars (N * c)).length) '0'
        ++ natToChars (N * c)).length = max (max (powDiv 2 D) (powDiv 5 D) + 1)
          (natToChars (N * c)).length := by
      rw [List.length_append, List.length_replicate]
      omega
    have hpdig : ∀ ch ∈ List.replicate
        (max (powDiv 2 D) (powDiv 5 D) + 1 - (natToChars (N * c)).length) '0'
        ++ natToChars (N * c), isDigitChar ch = true := by
      intro ch hch
      rcases List.mem_append.mp hch with h | h
      · rw [List.eq_of_mem_replicate h]
        decide
      · exact hdig ch h
    have hklt : max (powDiv 2 D) (powDiv 5 D) < (List.replicate
        (max (powDiv 2 D) (powDiv 5 D) + 1 - (natToChars (N * c)).length) '0'
        ++ natToChars (N * c)).length := by
      rw [hplen]
      omega
    have hpsum : digitsVal (List.replicate
        (max (powDiv 2 D) (powDiv 5 D) + 1 - (natToChars (N * c)).length) '0'
        ++ natToChars (N * c)) = N * c := by
      rw [digitsVal_append, digitsVal_replicate_zero, hdv, zero_mul, zero_add]
    generalize hpd : List.replicate
        (max (powDiv 2 D) (powDiv 5 D) + 1 - (natToChars (N * c)).length) '0'
        ++ natToChars (N * c) = pad at hpdig hklt hpsum hplen
    generalize hkk : max (powDiv 2 D) (powDiv 5 D) = k at hklt hpsum hval hplen ⊢
    have htne : pad.take (pad.length - k) ≠ [] := by
      have : (pad.take (pad.length - k)).length = pad.length - k := by
        rw [List.length_take]
        omega
      intro h
      rw [h] at this
      simp at this
      omega
    have hdtake : ∀ ch ∈ pad.take (pad.length - k), isDigitChar ch = true :=
      fun ch hch => hpdig ch (List.take_subset _ _ hch)
    have hddrop : ∀ ch ∈ pad.drop (pad.length - k), isDigitChar ch = true :=
      fun ch hch => hpdig ch (List.drop_subset _ _ hch)
    rw [parseFloatChars_point hdtake htne hddrop]
    have hdlen : (pad.drop (pad.length - k)).length = k := by
      rw [List.length_drop]
      omega
    have hsum2 : digitsVal (pad.take (pad.length - k)) * 10 ^ k
        + digitsVal (pad.drop (pad.length - k)) = N * c := by
      have h1 := digitsVal_append (pad.take (pad.length - k)) (pad.drop (pad.length - k))
      rw [List.take_append_drop, hdlen] at h1
      rw [← h1, hpsum]
    rw [hdlen]
    congr 1
    have h10 : ((10 : ℚ)) ^ k ≠ 0 := by positivity
    have hcast : (digitsVal (List.take (pad.length - k) pad) : ℚ) * 10 ^ k
        + (digitsVal (List.drop (pad.length - k) pad) : ℚ) = ((N * c : Nat) : ℚ) := by
      exact_mod_cast congrArg (fun t : Nat => (t : ℚ)) hsum2
    rw [← hval, ← hcast, add_div, mul_div_assoc, div_self h10, mul_one]

lemma parseFloat_jsToString_fin {q : ℚ} (hq : 0 < q) (hd : DecDen q) :
    parseFloat (jsToString (.fin q)) = .fin q := by
  have hnpos : 0 < q.num := Rat.num_pos.mpr hq
  have hnum : ¬ q.num < 0 := by omega
  have hnn : (q.num.toNat : ℤ) = q.num := Int.toNat_of_nonneg (by omega)
  rw [jsToString]
  rw [if_neg hnum]
  show parseFloatChars (decCharsOf q.num.toNat q.den) = _
  rw [parseFloat_decCharsOf q.num.toNat q.den q.den_nz (den_dvd_ten_pow hd)]
  congr 1
  rw [show ((q.num.toNat : ℕ) : ℚ) = ((q.num : ℤ) : ℚ) by exact_mod_cast congrArg Int.cast hnn]
  exact Rat.num_div_den q

/-- The shape of a dimension stored by the handlers: `Math.ceil` of a
parsed value, i.e. a positive integer or `Infinity`. -/
def StoredDim (v : JSNum) : Prop :=
  v = .posInf ∨ ∃ n : ℤ, 0 < n ∧ v = .fin (n : ℚ)

/-- The shape of a weight stored by the handlers: a parsed decimal
literal, i.e. a positive rational with decimal denominator, or
`Infinity`. -/
def StoredWeight (v : JSNum) : Prop :=
  v = .posInf ∨ ∃ q : ℚ, 0 < q ∧ DecDen q ∧ v = .fin q

lemma storedWeight_roundtrip {v : JSNum} (h : StoredWeight v) :
    parseFloat (jsToString v) = v ∧ v.pos = true := by
  rcases h with rfl | ⟨q, hq, hd, rfl⟩
  · exact ⟨by decide, rfl⟩
  · refine ⟨parseFloat_jsToString_fin hq hd, ?_⟩
    simp only [JSNum.pos, decide_eq_true_eq]
    exact hq

lemma storedDim_roundtrip {v : JSNum} (h : StoredDim v) :
    (parseFloat (jsToString v)).ceil = v ∧ parseFloat (jsToString v) = v ∧
      v.pos = true := by
  rcases h with rfl | ⟨n, hn, rfl⟩
  · exact ⟨by decide, by decide, rfl⟩
  · have hq : (0 : ℚ) < (n : ℚ) := by exact_mod_cast hn
    have hr : parseFloat (jsToString (.fin (n : ℚ))) = .fin (n : ℚ) :=
      parseFloat_jsToString_fin hq ⟨0, 0, by simp⟩
    refine ⟨?_, hr, ?_⟩
    · rw [hr]
      show JSNum.fin _ = _
      rw [ratCeil_eq_ceil, Int.ceil_intCast]
    · simp only [JSNum.pos, decide_eq_true_eq]
      exact hq

lemma Shipment.ext6 {s t : Shipment} (h1 : s.id = t.id) (h2 : s.length = t.length)
    (h3 : s.width = t.width) (h4 : s.height = t.height) (h5 : s.weight = t.weight)
    (h6 : s.reference = t.reference) : s = t := by
  cases s
  cases t
  simp_all

/-- C10: starting an edit on a stored record and resubmitting the
draft untouched is an identity: the parsed-back, re-ceiled values
equal the stored ones, the update replaces the record with an equal
one, and the whole shipment list is unchanged (edit mode ends). -/
theorem edit_then_resubmit_preserves_record (newId : String) (st : AppState)
    (R : Shipment) (hmem : R ∈ st.shipments)
    (hnd : (st.shipments.map Shipment.id).Nodup) (hne : R.id ≠ "")
    (hl : StoredDim R.length) (hw : StoredDim R.width) (hh : StoredDim R.height)
    (hwt : StoredWeight R.weight) :
    (handleAddShipment newId (handleEdit R st).1).1.shipments = st.shipments ∧
    (handleAddShipment newId (handleEdit R st).1).1.editingId = none := by
  obtain ⟨hlc, hlr, hlp⟩ := storedDim_roundtrip hl
  obtain ⟨hwc, hwr, hwp⟩ := storedDim_roundtrip hw
  obtain ⟨hhc, hhr, hhp⟩ := storedDim_roundtrip hh
  obtain ⟨hwtr, hwtp⟩ := storedWeight_roundtrip hwt
  have hvl : (parseFloat (handleEdit R st).1.formData.length).pos = true := by
    show (parseFloat (jsToString R.length)).pos = true
    rw [hlr]
    exact hlp
  have hvw : (parseFloat (handleEdit R st).1.formData.width).pos = true := by
    show (parseFloat (jsToString R.width)).pos = true
    rw [hwr]
    exact hwp
  have hvh : (parseFloat (handleEdit R st).1.formData.height).pos = true := by
    show (parseFloat (jsToString R.height)).pos = true
    rw [hhr]
    exact hhp
  have hvwt : (parseFloat (handleEdit R st).1.formData.weight).pos = true := by
    show (parseFloat (jsToString R.weight)).pos = true
    rw [hwtr]
    exact hwtp
  have hv : validateForm (handleEdit R st).1.formData = (true, []) :=
    validateForm_of_pos hvl hvw hvh hvwt
  have hnew : newShipmentOf newId (handleEdit R st).1 = R := by
    refine Shipment.ext6 ?_ ?_ ?_ ?_ ?_ rfl
    · show (if R.id = "" then newId else R.id) = R.id
      rw [if_neg hne]
    · exact hlc
    · exact hwc
    · exact hhc
    · exact hwtr
  have hEd : (handleEdit R st).1 =
      { shipments := st.shipments, editingId := some R.id,
        formData := draftOfShipment R } := rfl
  rw [hEd] at hv hnew
  have hstep : (handleAddShipment newId (handleEdit R st).1).1.shipments =
        st.shipments.map (fun s => if s.id = R.id then R else s) ∧
      (handleAddShipment newId (handleEdit R st).1).1.editingId = none := by
    rw [hEd, handleAddShipment, hv]
    dsimp only
    rw [if_neg hne, hnew]
    exact ⟨rfl, rfl⟩
  rw [hstep.1]
  refine ⟨?_, hstep.2⟩
  have hfix : ∀ s ∈ st.shipments, (if s.id = R.id then R else s) = s := by
    intro s hs
    by_cases h : s.id = R.id
    · rw [if_pos h]
      exact List.inj_on_of_nodup_map hnd hmem hs h.symm
    · rw [if_neg h]
  rw [List.map_congr_left hfix]
  exact List.map_id st.shipments

theorem edit_then_resubmit_preserves_record_witness :
    (sampleShipment ∈ sampleAddedState.shipments ∧
      (sampleAddedState.shipments.map Shipment.id).Nodup ∧
      sampleShipment.id ≠ "" ∧
      (handleAddShipment "n3" (handleEdit sampleShipment sampleAddedState).1).1.shipments =
        sampleAddedState.shipments ∧
      (handleAddShipment "n3" (handleEdit sampleShipment sampleAddedState).1).1.editingId =
        none) := by
  obtain ⟨h1, h2⟩ := edit_then_resubmit_preserves_record "n3" sampleAddedState
    sampleShipment (by decide) (by decide) (by decide)
    (Or.inr ⟨12, by decide, by decide⟩)
    (Or.inr ⟨8, by decide, by decide⟩)
    (Or.inr ⟨6, by decide, by decide⟩)
    (Or.inr ⟨mkRat 11 2, by decide, ⟨1, 0, by decide⟩, rfl⟩)
  exact ⟨by decide, by decide, by decide, h1, h2⟩
